import Mathlib

/-!
Verification of the avatar-engine animation pipeline.

Shallow embedding of:
- `DeltaCompressor.compress` (backend delta compression, quoted in the
  technical-specification document),
- `OptimizedFacialAnimationClient` (frontend client: keyframe/delta
  application, cubic ease-in-out interpolation, animation loop),
- `OptimizedMorphSystem.setMorph` / `shouldUpdateMorph` / `setQuality`
  (frontend scheduler in `PerformanceMonitor.js`),
- the dynamic quality adjustment loop from the integration guide.

JavaScript objects holding channel → float maps are embedded as association
lists `List (String × ℚ)` (first occurrence wins on lookup, as JS property
lookup; the maps the program builds have unique keys). JS `map[k] || 0`
lookups are embedded as `valD` with default `0`. Floats are embedded as `ℚ`.
-/

namespace AvatarEngine

/-- A channel → value map, as a JS object: association list over `String`. -/
abbrev ChannelMap := List (String × ℚ)

/-- Lookup of a key in a channel map: first entry with that key. -/
def getVal : ChannelMap → String → Option ℚ
  | [], _ => none
  | kv :: rest, key => if kv.1 = key then some kv.2 else getVal rest key

/-- Lookup with default 0, the JS `map[k] || 0` idiom. -/
def valD (m : ChannelMap) (k : String) : ℚ := (getVal m k).getD 0

/-- Whether a key is present, the JS `k in m` / `m.has(k)` idiom. -/
def hasKey (m : ChannelMap) (k : String) : Bool := (getVal m k).isSome

/-- The key list of a channel map. -/
def keysOf (m : ChannelMap) : List String := m.map Prod.fst

/-- The wire-level dedup threshold `0.001` used by the delta compressor. -/
def wireEps : ℚ := 1 / 1000

/-- Embeds `DeltaCompressor.compress` (backend/compression/delta_compressor.py,
quoted in the technical specification): a channel of `current` is included iff
it is absent from `previous` or differs by more than `0.001`; a channel of
`previous` absent from `current` with value above `0.001` is included as `0`. -/
def compress (current previous : ChannelMap) : ChannelMap :=
  (current.filter fun kv =>
      match getVal previous kv.1 with
      | none => true
      | some pv => decide (wireEps < |kv.2 - pv|)) ++
    ((previous.filter fun kv =>
        !hasKey current kv.1 && decide (wireEps < kv.2)).map
      fun kv => (kv.1, (0 : ℚ)))

/-- JS property assignment `m[k] = v`: replace in place if present, else append. -/
def setKey (m : ChannelMap) (k : String) (v : ℚ) : ChannelMap :=
  if hasKey m k then m.map fun kv => if kv.1 = k then (k, v) else kv
  else m ++ [(k, v)]

/-- The JS loop `for (const [morph, value] of Object.entries(delta))
`target[morph] = value` over a copy of `base`. -/
def applyEntries (base : ChannelMap) (delta : ChannelMap) : ChannelMap :=
  delta.foldl (fun acc kv => setKey acc kv.1 kv.2) base

/-- Embeds the client's cubic ease-in-out from
`OptimizedFacialAnimationClient.updateInterpolation`:
`t < 0.5 → 4t³`, else `1 + p³/2` with `p = 2t - 2` (the source's local
`p` is inlined). -/
def easeInOutCubic (t : ℚ) : ℚ :=
  if t < 1 / 2 then 4 * t * t * t
  else 1 + (2 * t - 2) * (2 * t - 2) * (2 * t - 2) / 2

/-- One channel of the client's interpolation step:
`startValue + (targetValue - startValue) * eased`. -/
def sampleMorph (startValue targetValue eased : ℚ) : ℚ :=
  startValue + (targetValue - startValue) * eased

/-- The interpolation parameter `t = Math.min(elapsed / duration, 1.0)`
computed by `updateInterpolation`. -/
def tOf (startTime duration now : ℚ) : ℚ :=
  min ((now - startTime) / duration) 1

/-- The `allMorphs` set of `updateInterpolation`: union of the keys of the
stored start values and of the target map. -/
def allMorphs (startVals targets : ChannelMap) : List String :=
  (keysOf startVals ++ keysOf targets).dedup

/-- The interpolation loop body of `updateInterpolation`: for every morph in
`allMorphs`, interpolate from `startVals[m] || 0` toward `targets[m] || 0`. -/
def interpolateAll (startVals targets : ChannelMap) (t : ℚ) : ChannelMap :=
  (allMorphs startVals targets).map fun m =>
    (m, sampleMorph (valD startVals m) (valD targets m) (easeInOutCubic t))

/-- The client's fixed interpolation duration: 33 ms (for 30 FPS). -/
def interpolationDurationMs : ℚ := 33

/-- State of `OptimizedFacialAnimationClient` relevant to blendshape
processing (constructor fields of the same names). -/
structure ClientState where
  currentBlendshapes : ChannelMap
  targetBlendshapes : ChannelMap
  keyframeBlendshapes : ChannelMap
  interpolationStartValues : ChannelMap
  interpolationActive : Bool
  interpolationStartTime : ℚ
  keyframesReceived : ℕ
  deltasApplied : ℕ
  enableInterpolation : Bool

/-- The constructor's initial state (`config.enableInterpolation` defaults to
`true`; all maps start as `{}` — in particular `keyframeBlendshapes = {}`). -/
def initialClientState : ClientState :=
  { currentBlendshapes := []
    targetBlendshapes := []
    keyframeBlendshapes := []
    interpolationStartValues := []
    interpolationActive := false
    interpolationStartTime := 0
    keyframesReceived := 0
    deltasApplied := 0
    enableInterpolation := true }

/-- The `compression` payload of a `blendshape_update` message. -/
inductive CompressionMsg
  | keyframe (data : ChannelMap)
  | delta (data : ChannelMap)

/-- Embeds `OptimizedFacialAnimationClient.handleBlendshapeUpdate`: a keyframe
replaces `keyframeBlendshapes` and `targetBlendshapes` wholesale; a delta
rebuilds `targetBlendshapes` from a copy of `keyframeBlendshapes` with the
delta's entries applied on top. Then, if interpolation is enabled,
`startInterpolation` records `now` and copies `currentBlendshapes` into
`interpolationStartValues`; otherwise `currentBlendshapes` jumps to the
target directly. -/
def handleBlendshapeUpdate (s : ClientState) (msg : CompressionMsg) (now : ℚ) :
    ClientState :=
  let s1 :=
    match msg with
    | .keyframe data =>
        { s with
          keyframeBlendshapes := data
          targetBlendshapes := data
          keyframesReceived := s.keyframesReceived + 1 }
    | .delta data =>
        { s with
          targetBlendshapes := applyEntries s.keyframeBlendshapes data
          deltasApplied := s.deltasApplied + 1 }
  if s1.enableInterpolation then
    { s1 with
      interpolationActive := true
      interpolationStartTime := now
      interpolationStartValues := s1.currentBlendshapes }
  else { s1 with currentBlendshapes := s1.targetBlendshapes }

/-- Embeds `OptimizedFacialAnimationClient.updateInterpolation` (called once
per animation frame): early return when inactive; otherwise compute
`t = min(elapsed/33, 1)`, write the eased values for every morph in the union
of start and target keys into `currentBlendshapes`, and when `t ≥ 1` finish
the transition (deactivate and snap `currentBlendshapes` to the target). -/
def updateInterpolation (s : ClientState) (now : ℚ) : ClientState :=
  if s.interpolationActive then
    let t := tOf s.interpolationStartTime interpolationDurationMs now
    let s1 :=
      { s with
        currentBlendshapes :=
          interpolateAll s.interpolationStartValues s.targetBlendshapes t }
    if 1 ≤ t then
      { s1 with
        interpolationActive := false
        currentBlendshapes := s1.targetBlendshapes }
    else s1
  else s

/-- The quality presets of `OptimizedMorphSystem`. -/
inductive Quality
  | low
  | medium
  | high
  | ultra
deriving DecidableEq

/-- The scheduling-relevant fields of a quality preset (the remaining fields
— shadow map size, LOD distances, pixel ratio, morph normals — configure
rendering only and are not read by the embedded functions). -/
structure QualityPreset where
  morphUpdateThreshold : ℚ
  maxActiveMorphs : ℕ
  updateFrequency : ℕ

/-- Embeds `this.qualityPresets` of `OptimizedMorphSystem`. -/
def qualityPresets : Quality → QualityPreset
  | .low => { morphUpdateThreshold := 5 / 100, maxActiveMorphs := 50, updateFrequency := 3 }
  | .medium => { morphUpdateThreshold := 1 / 100, maxActiveMorphs := 100, updateFrequency := 2 }
  | .high => { morphUpdateThreshold := 1 / 1000, maxActiveMorphs := 266, updateFrequency := 1 }
  | .ultra => { morphUpdateThreshold := 1 / 10000, maxActiveMorphs := 500, updateFrequency := 1 }

/-- State of `OptimizedMorphSystem` relevant to admission scheduling.
`morphStates` embeds the JS `Map` read through `get(name) || 0` (the
constructor initialises every registered morph to 0, so the total function
with default 0 is the faithful reading). -/
structure MorphSystemState where
  quality : Quality
  selectiveUpdates : Bool
  lodEnabled : Bool
  priorityMorphs : Finset String
  morphNames : Finset String
  morphStates : String → ℚ
  activeMorphs : Finset String
  dirtyMorphs : Finset String
  frameCounter : ℕ
  lodLevel : ℕ

/-- Embeds `OptimizedMorphSystem.setMorph(morphName, value, force)`:
returns whether the update was accepted together with the new state.
Unregistered morph → `false`; sub-threshold change with selective updates →
`false`; new-active morph past the cap and not priority → `false`; otherwise
store the value, mark dirty, and maintain the active set at the `0.001`
activation threshold. -/
def setMorph (s : MorphSystemState) (morphName : String) (value : ℚ)
    (force : Bool) : Bool × MorphSystemState :=
  if !decide (morphName ∈ s.morphNames) then (false, s)
  else
    let preset := qualityPresets s.quality
    let currentValue := s.morphStates morphName
    let delta := |value - currentValue|
    if !force && s.selectiveUpdates && decide (delta < preset.morphUpdateThreshold) then
      (false, s)
    else if !force && decide (0 < value) && !decide (morphName ∈ s.activeMorphs) &&
        decide (preset.maxActiveMorphs ≤ s.activeMorphs.card) &&
        !decide (morphName ∈ s.priorityMorphs) then
      (false, s)
    else
      (true,
        { s with
          morphStates := fun n => if n = morphName then value else s.morphStates n
          dirtyMorphs := insert morphName s.dirtyMorphs
          activeMorphs :=
            if (1 : ℚ) / 1000 < value then insert morphName s.activeMorphs
            else s.activeMorphs.erase morphName })

/-- Embeds `OptimizedMorphSystem.updateMorphs(morphData)`: entries sorted
priority-first (the stable JS sort with comparator `bPriority - aPriority`
is a stable partition), each fed to `setMorph`; returns the number of
accepted updates and the final state. -/
def updateMorphs (s : MorphSystemState) (morphData : List (String × ℚ)) :
    ℕ × MorphSystemState :=
  let sorted :=
    (morphData.filter fun kv => decide (kv.1 ∈ s.priorityMorphs)) ++
      morphData.filter fun kv => !decide (kv.1 ∈ s.priorityMorphs)
  sorted.foldl
    (fun acc kv =>
      let r := setMorph acc.2 kv.1 kv.2 false
      (if r.1 then acc.1 + 1 else acc.1, r.2))
    (0, s)

/-- Embeds `OptimizedMorphSystem.shouldUpdateMorph(morphName, preset)`:
priority morphs always update; otherwise frame-stride and LOD filtering. -/
def shouldUpdateMorph (s : MorphSystemState) (morphName : String) : Bool :=
  if decide (morphName ∈ s.priorityMorphs) then true
  else if s.frameCounter % (qualityPresets s.quality).updateFrequency ≠ 0 then false
  else if s.lodEnabled && decide (1 < s.lodLevel) then decide (morphName ∈ s.priorityMorphs)
  else true

/-- Parsing of the quality string argument of `setQuality`. -/
def parseQuality : String → Option Quality
  | "low" => some .low
  | "medium" => some .medium
  | "high" => some .high
  | "ultra" => some .ultra
  | _ => none

/-- Embeds `OptimizedMorphSystem.setQuality(quality)`: unknown preset names
are ignored with a warning; a known preset is applied directly, whatever the
current tier. -/
def setQuality (s : MorphSystemState) (quality : String) : MorphSystemState :=
  match parseQuality quality with
  | none => s
  | some q => { s with quality := q }

/-- Embeds the dynamic quality adjustment loop of the integration guide
(runs every 5 s): if the rolling average fps is below 30 and the quality is
not already low, switch to low; else if it is above 55 and the quality is
low, switch to medium. -/
def adjustQuality (s : MorphSystemState) (avgFps : ℚ) : MorphSystemState :=
  if avgFps < 30 && !decide (s.quality = Quality.low) then setQuality s "low"
  else if 55 < avgFps && decide (s.quality = Quality.low) then setQuality s "medium"
  else s

/-- Numeric index of a quality tier, for talking about tier steps. -/
def tierIdx : Quality → ℕ
  | .low => 0
  | .medium => 1
  | .high => 2
  | .ultra => 3

/-! Basic lemmas about channel-map lookup. -/

theorem getVal_eq_none {m : ChannelMap} {k : String} (h : k ∉ keysOf m) :
    getVal m k = none := by
  induction m with
  | nil => rfl
  | cons kv rest ih =>
    simp only [keysOf, List.map_cons, List.mem_cons, not_or] at h
    rw [getVal, if_neg (fun e => h.1 e.symm)]
    exact ih (by simpa [keysOf] using h.2)

theorem mem_keysOf_of_getVal {m : ChannelMap} {k : String} {v : ℚ}
    (h : getVal m k = some v) : k ∈ keysOf m := by
  by_contra hk
  rw [getVal_eq_none hk] at h
  exact Option.noConfusion h

theorem getVal_isSome_iff {m : ChannelMap} {k : String} :
    (getVal m k).isSome = true ↔ k ∈ keysOf m := by
  constructor
  · intro h
    obtain ⟨v, hv⟩ := Option.isSome_iff_exists.mp h
    exact mem_keysOf_of_getVal hv
  · intro h
    by_contra hs
    rw [Option.not_isSome_iff_eq_none] at hs
    induction m with
    | nil => exact (List.not_mem_nil k) h
    | cons kv rest ih =>
      rw [getVal] at hs
      by_cases he : kv.1 = k
      · rw [if_pos he] at hs; exact Option.noConfusion hs
      · rw [if_neg he] at hs
        simp only [keysOf, List.map_cons, List.mem_cons] at h
        exact ih (h.resolve_left fun e => he e.symm) hs

theorem entry_mem_of_getVal {m : ChannelMap} {k : String} {v : ℚ}
    (h : getVal m k = some v) : (k, v) ∈ m := by
  induction m with
  | nil => exact Option.noConfusion h
  | cons kv rest ih =>
    rw [getVal] at h
    by_cases he : kv.1 = k
    · rw [if_pos he] at h
      cases kv with
      | mk a b =>
        cases he
        cases Option.some.inj h
        exact List.mem_cons_self _ _
    · rw [if_neg he] at h
      exact List.mem_cons_of_mem _ (ih h)

theorem getVal_eq_some_valD {m : ChannelMap} {k : String} (h : k ∈ keysOf m) :
    getVal m k = some (valD m k) := by
  have := getVal_isSome_iff.mpr h
  cases hv : getVal m k with
  | none => rw [hv] at this; exact absurd this (by simp)
  | some v => simp [valD, hv]

theorem valD_eq_zero {m : ChannelMap} {k : String} (h : k ∉ keysOf m) :
    valD m k = 0 := by
  simp [valD, getVal_eq_none h]

theorem getVal_append (a b : ChannelMap) (k : String) :
    getVal (a ++ b) k =
      match getVal a k with
      | some v => some v
      | none => getVal b k := by
  induction a with
  | nil => rfl
  | cons kv rest ih =>
    by_cases he : kv.1 = k
    · simp [getVal, he]
    · simp only [List.cons_append, getVal, if_neg he]
      exact ih

theorem keysOf_filter_subset {m : ChannelMap} {p : String × ℚ → Bool}
    {k : String} (h : k ∈ keysOf (m.filter p)) : k ∈ keysOf m := by
  simp only [keysOf, List.mem_map] at h ⊢
  obtain ⟨kv, hm, he⟩ := h
  exact ⟨kv, (List.mem_filter.mp hm).1, he⟩

theorem getVal_filter {m : ChannelMap} (p : String × ℚ → Bool) (k : String)
    (hm : (keysOf m).Nodup) :
    getVal (m.filter p) k =
      match getVal m k with
      | none => none
      | some v => if p (k, v) then some v else none := by
  induction m with
  | nil => rfl
  | cons kv rest ih =>
    have hrest : (keysOf rest).Nodup := (List.nodup_cons.mp hm).2
    have hnotin : kv.1 ∉ keysOf rest := (List.nodup_cons.mp hm).1
    obtain ⟨a, b⟩ := kv
    by_cases he : a = k
    · subst he
      by_cases hp : p (a, b)
      · simp [getVal, List.filter_cons, hp]
      · rw [List.filter_cons, if_neg (by simpa using hp)]
        have h2 : getVal (rest.filter p) a = none :=
          getVal_eq_none fun hc => hnotin (keysOf_filter_subset hc)
        rw [h2]
        simp [getVal, hp]
    · have h1 : getVal ((a, b) :: rest) k = getVal rest k := by
        simp [getVal, he]
      rw [h1, List.filter_cons]
      by_cases hp : p (a, b)
      · rw [if_pos (by simpa using hp)]
        have h2 : getVal ((a, b) :: rest.filter p) k = getVal (rest.filter p) k := by
          simp [getVal, he]
        rw [h2]
        exact ih hrest
      · rw [if_neg (by simpa using hp)]
        exact ih hrest

theorem getVal_map_zero (m : ChannelMap) (k : String) :
    getVal (m.map fun kv => (kv.1, (0 : ℚ))) k =
      (getVal m k).map fun _ => (0 : ℚ) := by
  induction m with
  | nil => rfl
  | cons kv rest ih =>
    by_cases he : kv.1 = k
    · simp [getVal, he]
    · simp only [List.map_cons, getVal, if_neg he]
      exact ih

theorem getVal_replaceAll (m : ChannelMap) (k0 : String) (v0 : ℚ) (k : String) :
    getVal (m.map fun kv => if kv.1 = k0 then (k0, v0) else kv) k =
      if k = k0 then (if hasKey m k0 then some v0 else none) else getVal m k := by
  induction m with
  | nil => simp [getVal, hasKey]
  | cons kv rest ih =>
    obtain ⟨a, b⟩ := kv
    simp only [List.map_cons]
    by_cases ha : a = k0
    · subst ha
      by_cases hk : k = a
      · subst hk
        simp [getVal, hasKey]
      · simp [getVal, hk, Ne.symm hk, ih]
    · by_cases hk : k = a
      · subst hk
        simp [getVal, ha]
      · have hh : hasKey ((a, b) :: rest) k0 = hasKey rest k0 := by
          simp [hasKey, getVal, ha]
        simp [getVal, ha, hk, Ne.symm hk, ih, hh]

theorem getVal_setKey (m : ChannelMap) (k0 : String) (v0 : ℚ) (k : String) :
    getVal (setKey m k0 v0) k = if k = k0 then some v0 else getVal m k := by
  unfold setKey
  by_cases hh : hasKey m k0
  · rw [if_pos hh, getVal_replaceAll, hh]
    simp
  · rw [Bool.not_eq_true] at hh
    have hnone : getVal m k0 = none := by
      cases hv : getVal m k0 with
      | none => rfl
      | some v => simp [hasKey, hv] at hh
    rw [hh, if_neg (by simp), getVal_append]
    by_cases hk : k = k0
    · subst hk
      rw [hnone]
      simp [getVal]
    · rw [if_neg hk]
      cases hv : getVal m k with
      | some v => rfl
      | none => simp [getVal, Ne.symm hk]

theorem getVal_applyEntries (base : ChannelMap) {d : ChannelMap} (k : String)
    (hd : (keysOf d).Nodup) :
    getVal (applyEntries base d) k =
      match getVal d k with
      | some v => some v
      | none => getVal base k := by
  induction d generalizing base with
  | nil => rfl
  | cons kv rest ih =>
    obtain ⟨a, b⟩ := kv
    have hrest : (keysOf rest).Nodup := (List.nodup_cons.mp hd).2
    have hnotin : a ∉ keysOf rest := (List.nodup_cons.mp hd).1
    have hfold : applyEntries base ((a, b) :: rest) =
        applyEntries (setKey base a b) rest := rfl
    rw [hfold, ih (setKey base a b) hrest]
    cases hv : getVal rest k with
    | some v =>
      have hak : ¬a = k := fun e => hnotin (by rw [e]; exact mem_keysOf_of_getVal hv)
      simp [getVal, hak, hv]
    | none =>
      simp only [hv]
      rw [getVal_setKey]
      by_cases hk : k = a
      · subst hk
        simp [getVal]
      · simp [getVal, Ne.symm hk, hk, hv]

theorem getVal_compress (S K : ChannelMap) (hS : (keysOf S).Nodup)
    (hK : (keysOf K).Nodup) (k : String) :
    getVal (compress S K) k =
      match getVal S k, getVal K k with
      | some v, none => some v
      | some v, some pv => if wireEps < |v - pv| then some v else none
      | none, some pv => if wireEps < pv then some 0 else none
      | none, none => none := by
  unfold compress
  rw [getVal_append, getVal_filter _ _ hS, getVal_map_zero, getVal_filter _ _ hK]
  cases hvS : getVal S k with
  | some v =>
    have hhS : hasKey S k = true := by simp [hasKey, hvS]
    cases hvK : getVal K k with
    | none => simp [hvK]
    | some pv =>
      by_cases hc : wireEps < |v - pv|
      · simp [hvK, hc]
      · simp [hvK, hc, hhS]
  | none =>
    have hhS : hasKey S k = false := by simp [hasKey, hvS]
    cases hvK : getVal K k with
    | none => simp
    | some pv =>
      by_cases hc : wireEps < pv
      · simp [hhS, hc]
      · simp [hhS, hc]

theorem keysOf_append (a b : ChannelMap) : keysOf (a ++ b) = keysOf a ++ keysOf b :=
  List.map_append _ _ _

theorem keysOf_filter_nodup {m : ChannelMap} (p : String × ℚ → Bool)
    (hm : (keysOf m).Nodup) : (keysOf (m.filter p)).Nodup :=
  List.Nodup.sublist (List.Sublist.map Prod.fst (List.filter_sublist m)) hm

theorem keysOf_map_zero (m : ChannelMap) :
    keysOf (m.map fun kv => (kv.1, (0 : ℚ))) = keysOf m := by
  simp [keysOf, List.map_map, Function.comp]

theorem keysOf_compress_nodup {S K : ChannelMap} (hS : (keysOf S).Nodup)
    (hK : (keysOf K).Nodup) : (keysOf (compress S K)).Nodup := by
  unfold compress
  rw [keysOf_append, keysOf_map_zero]
  refine List.Nodup.append (keysOf_filter_nodup _ hS) (keysOf_filter_nodup _ hK) ?_
  intro k h1 h2
  have hkS : k ∈ keysOf S := keysOf_filter_subset h1
  simp only [keysOf, List.mem_map] at h2
  obtain ⟨kv, hmem, he⟩ := h2
  have hq := (List.mem_filter.mp hmem).2
  rw [he] at hq
  have htrue : hasKey S k = true := getVal_isSome_iff.mpr hkS
  rw [htrue] at hq
  simp at hq

/-! Lemmas about the cubic ease-in-out curve. -/

theorem cube_mono {a b : ℚ} (h : a ≤ b) : a * a * a ≤ b * b * b := by
  nlinarith [sq_nonneg (a + b), sq_nonneg (a - b), sq_nonneg a, sq_nonneg b]

theorem easeInOutCubic_mono {t1 t2 : ℚ} (h0 : 0 ≤ t1) (h12 : t1 ≤ t2)
    (h1 : t2 ≤ 1) : easeInOutCubic t1 ≤ easeInOutCubic t2 := by
  unfold easeInOutCubic
  split_ifs with ha hb hb
  · nlinarith [cube_mono h12]
  · have hc1 := cube_mono (le_of_lt ha : t1 ≤ 1 / 2)
    have hc2 := cube_mono (by linarith : (-1 : ℚ) ≤ 2 * t2 - 2)
    nlinarith
  · linarith [not_lt.mp ha]
  · nlinarith [cube_mono (by linarith : 2 * t1 - 2 ≤ 2 * t2 - 2)]

theorem easeInOutCubic_le_one {t : ℚ} (h1 : t ≤ 1) : easeInOutCubic t ≤ 1 := by
  unfold easeInOutCubic
  split_ifs with h
  · nlinarith [cube_mono (le_of_lt h : t ≤ 1 / 2)]
  · nlinarith [cube_mono (by linarith : 2 * t - 2 ≤ 0)]

theorem easeInOutCubic_nonneg {t : ℚ} (h0 : 0 ≤ t) (h1 : t ≤ 1) :
    0 ≤ easeInOutCubic t := by
  unfold easeInOutCubic
  split_ifs with h
  · nlinarith [cube_mono h0]
  · nlinarith [cube_mono (by linarith : (-1 : ℚ) ≤ 2 * t - 2)]

theorem easeInOutCubic_zero : easeInOutCubic 0 = 0 := by
  norm_num [easeInOutCubic]

theorem easeInOutCubic_one : easeInOutCubic 1 = 1 := by
  norm_num [easeInOutCubic]

/-! Lemmas about the interpolation parameter `t`. -/

theorem tOf_nonneg {startTime duration now : ℚ} (hd : 0 < duration)
    (hn : startTime ≤ now) : 0 ≤ tOf startTime duration now :=
  le_min (div_nonneg (by linarith) (le_of_lt hd)) (by norm_num)

theorem tOf_le_one (startTime duration now : ℚ) :
    tOf startTime duration now ≤ 1 :=
  min_le_right _ _

theorem tOf_mono {startTime duration now1 now2 : ℚ} (hd : 0 < duration)
    (h : now1 ≤ now2) :
    tOf startTime duration now1 ≤ tOf startTime duration now2 :=
  min_le_min ((div_le_div_right hd).mpr (by linarith)) le_rfl

theorem tOf_eq_one {startTime duration now : ℚ} (hd : 0 < duration)
    (h : startTime + duration ≤ now) : tOf startTime duration now = 1 :=
  min_eq_right ((le_div_iff hd).mpr (by linarith))

theorem tOf_lt_one {startTime duration now : ℚ} (hd : 0 < duration)
    (h : now < startTime + duration) : tOf startTime duration now < 1 :=
  lt_of_le_of_lt (min_le_left _ _) ((div_lt_one hd).mpr (by linarith))

theorem sample_dist_mono (sv tv : ℚ) {e1 e2 : ℚ} (h12 : e1 ≤ e2) (h1 : e2 ≤ 1) :
    |sampleMorph sv tv e2 - tv| ≤ |sampleMorph sv tv e1 - tv| := by
  have hrw : ∀ e, sampleMorph sv tv e - tv = (sv - tv) * (1 - e) := by
    intro e
    unfold sampleMorph
    ring
  rw [hrw, hrw, abs_mul, abs_mul,
    abs_of_nonneg (by linarith : (0 : ℚ) ≤ 1 - e2),
    abs_of_nonneg (by linarith : (0 : ℚ) ≤ 1 - e1)]
  exact mul_le_mul_of_nonneg_left (by linarith) (abs_nonneg _)

theorem sampleMorph_one (sv tv : ℚ) : sampleMorph sv tv (easeInOutCubic 1) = tv := by
  rw [easeInOutCubic_one]
  unfold sampleMorph
  ring

/-! Lemmas about the interpolation map built each frame. -/

theorem getVal_map_keys (keys : List String) (f : String → ℚ) (m : String) :
    getVal (keys.map fun k => (k, f k)) m =
      if m ∈ keys then some (f m) else none := by
  induction keys with
  | nil => simp [getVal]
  | cons k rest ih =>
    by_cases he : k = m
    · subst he
      simp [getVal]
    · simp [getVal, he, Ne.symm he, ih]

theorem mem_allMorphs {S T : ChannelMap} {m : String} :
    m ∈ allMorphs S T ↔ m ∈ keysOf S ∨ m ∈ keysOf T := by
  unfold allMorphs
  rw [List.mem_dedup, List.mem_append]

theorem keysOf_interpolateAll (S T : ChannelMap) (t : ℚ) :
    keysOf (interpolateAll S T t) = allMorphs S T := by
  unfold interpolateAll keysOf
  rw [List.map_map]
  have hid : (Prod.fst ∘ fun m =>
      (m, sampleMorph (valD S m) (valD T m) (easeInOutCubic t))) = id := by
    funext m
    rfl
  rw [hid, List.map_id]

theorem valD_interpolateAll (S T : ChannelMap) (t : ℚ) (m : String) :
    valD (interpolateAll S T t) m =
      sampleMorph (valD S m) (valD T m) (easeInOutCubic t) := by
  unfold interpolateAll
  rw [valD, getVal_map_keys]
  by_cases hm : m ∈ allMorphs S T
  · simp [hm]
  · have hS : m ∉ keysOf S := fun h => hm (mem_allMorphs.mpr (Or.inl h))
    have hT : m ∉ keysOf T := fun h => hm (mem_allMorphs.mpr (Or.inr h))
    simp [hm, valD_eq_zero hS, valD_eq_zero hT, sampleMorph]

theorem updateInterpolation_enable (s : ClientState) (now : ℚ) :
    (updateInterpolation s now).enableInterpolation = s.enableInterpolation := by
  unfold updateInterpolation
  by_cases h : s.interpolationActive <;> simp only [h, if_true, if_false] <;>
    split_ifs <;> rfl

theorem updateInterpolation_target (s : ClientState) (now : ℚ) :
    (updateInterpolation s now).targetBlendshapes = s.targetBlendshapes := by
  unfold updateInterpolation
  by_cases h : s.interpolationActive <;> simp only [h, if_true, if_false] <;>
    split_ifs <;> rfl

theorem updateInterpolation_inactive {s : ClientState} (now : ℚ)
    (h : s.interpolationActive = false) : updateInterpolation s now = s := by
  unfold updateInterpolation
  rw [h]
  rfl

/-- C3: for every channel in a transition from the stored start value toward
`targetValue`, the value sampled by the interpolation code moves
monotonically toward `targetValue` at every time in
`[transitionStartTime, transitionStartTime + transitionDuration]` (the
distance to the target is non-increasing), and at or after
`transitionStartTime + transitionDuration` the sampled value equals
`targetValue` exactly, staying settled until a new target is set. -/
theorem sample_monotone_settles (sv tv startTime duration now1 now2 : ℚ)
    (hd : 0 < duration) (h1 : startTime ≤ now1) (h12 : now1 ≤ now2)
    (h2 : now2 ≤ startTime + duration) :
    |sampleMorph sv tv (easeInOutCubic (tOf startTime duration now2)) - tv| ≤
      |sampleMorph sv tv (easeInOutCubic (tOf startTime duration now1)) - tv| ∧
    ∀ now, startTime + duration ≤ now →
      sampleMorph sv tv (easeInOutCubic (tOf startTime duration now)) = tv := by
  constructor
  · exact sample_dist_mono sv tv
      (easeInOutCubic_mono (tOf_nonneg hd h1) (tOf_mono hd h12) (tOf_le_one _ _ _))
      (easeInOutCubic_le_one (tOf_le_one _ _ _))
  · intro now hnow
    rw [tOf_eq_one hd hnow]
    exact sampleMorph_one sv tv

/-- Witness for C3: concrete transition from 1 toward 0 starting at time 0
with the client's 33 ms duration, sampled at 10 and 20 ms, settled at 40 ms. -/
theorem sample_monotone_settles_witness :
    ((0 : ℚ) < 33 ∧ (0 : ℚ) ≤ 10 ∧ (10 : ℚ) ≤ 20 ∧ (20 : ℚ) ≤ 0 + 33) ∧
    (|sampleMorph 1 0 (easeInOutCubic (tOf 0 33 20)) - 0| ≤
        |sampleMorph 1 0 (easeInOutCubic (tOf 0 33 10)) - 0| ∧
      ∀ now, (0 : ℚ) + 33 ≤ now →
        sampleMorph 1 0 (easeInOutCubic (tOf 0 33 now)) = 0) :=
  ⟨by norm_num,
    sample_monotone_settles 1 0 0 33 10 20 (by norm_num) (by norm_num)
      (by norm_num) (by norm_num)⟩

/-- Clamp to `[0, 1]`, for stating the spec's
`clamp((now - transitionStartTime)/transitionDuration, 0, 1)`. -/
def clampUnit (x : ℚ) : ℚ := max 0 (min x 1)

/-- Modelled from the spec's words for comparison with the source's
`easeInOutCubic`: the symmetric ease-in-out cubic as the spec writes it,
`t < 0.5 → 4t³`, else `1 - (-2t+2)³/2`. -/
def specEased (t : ℚ) : ℚ :=
  if t < 1 / 2 then 4 * t ^ 3 else 1 - (-2 * t + 2) ^ 3 / 2

theorem easeInOutCubic_eq_specEased (t : ℚ) : easeInOutCubic t = specEased t := by
  unfold easeInOutCubic specEased
  split_ifs with h
  · ring
  · ring

theorem tOf_eq_clampUnit {startTime duration now : ℚ} (hd : 0 < duration)
    (hn : startTime ≤ now) :
    tOf startTime duration now = clampUnit ((now - startTime) / duration) := by
  unfold tOf clampUnit
  rw [max_eq_right]
  exact le_min (div_nonneg (by linarith) hd.le) (by norm_num)

/-- C7: at every animation frame with `now` at or after the transition
start, the interpolation writes, for every morph, exactly
`previous + (target - previous) * eased(clamp((now - start)/duration, 0, 1))`
where `eased` is the spec's symmetric ease-in-out cubic (`4t³` below 0.5,
`1 - (-2t+2)³/2` above) and the client's duration is 33 ms. -/
theorem interp_formula_spec (s : ClientState) (now : ℚ) (m : String)
    (hact : s.interpolationActive = true)
    (hnow : s.interpolationStartTime ≤ now) :
    valD (updateInterpolation s now).currentBlendshapes m =
      valD s.interpolationStartValues m +
        (valD s.targetBlendshapes m - valD s.interpolationStartValues m) *
          specEased (clampUnit ((now - s.interpolationStartTime) /
            interpolationDurationMs)) := by
  have hd : (0 : ℚ) < interpolationDurationMs := by
    norm_num [interpolationDurationMs]
  rw [← tOf_eq_clampUnit hd hnow, ← easeInOutCubic_eq_specEased]
  by_cases hle :
      1 ≤ tOf s.interpolationStartTime interpolationDurationMs now
  · have h1 : tOf s.interpolationStartTime interpolationDurationMs now = 1 :=
      le_antisymm (tOf_le_one _ _ _) hle
    rw [h1, easeInOutCubic_one]
    simp only [updateInterpolation, hact, if_true, h1, le_refl]
    ring
  · simp only [updateInterpolation, hact, if_true, if_neg hle]
    rw [valD_interpolateAll]
    unfold sampleMorph
    rfl

/-- Witness for C7: the initial client given a keyframe `{A: 1}` at time 0,
sampled 10 ms in. -/
theorem interp_formula_spec_witness :
    ((handleBlendshapeUpdate initialClientState
        (CompressionMsg.keyframe [("A", 1)]) 0).interpolationActive = true ∧
      (handleBlendshapeUpdate initialClientState
        (CompressionMsg.keyframe [("A", 1)]) 0).interpolationStartTime ≤ 10) ∧
    valD (updateInterpolation (handleBlendshapeUpdate initialClientState
        (CompressionMsg.keyframe [("A", 1)]) 0) 10).currentBlendshapes "A" =
      valD (handleBlendshapeUpdate initialClientState
          (CompressionMsg.keyframe [("A", 1)]) 0).interpolationStartValues "A" +
        (valD (handleBlendshapeUpdate initialClientState
            (CompressionMsg.keyframe [("A", 1)]) 0).targetBlendshapes "A" -
          valD (handleBlendshapeUpdate initialClientState
            (CompressionMsg.keyframe [("A", 1)]) 0).interpolationStartValues "A") *
          specEased (clampUnit ((10 - (handleBlendshapeUpdate initialClientState
            (CompressionMsg.keyframe [("A", 1)]) 0).interpolationStartTime) /
            interpolationDurationMs)) :=
  ⟨⟨by decide, by decide⟩,
    interp_formula_spec _ 10 "A" (by decide) (by decide)⟩

/-- C10: in every interpolation step the interpolated morph set is exactly
the union of the morphs of the stored start values and of the current target
map; each morph's value is interpolated with 0 standing in for a side it is
absent from; and a morph present in the start values but absent from the
target map eases monotonically toward 0 (its magnitude is non-increasing as
eased time advances in `[0, 1]`) rather than retaining its old value. -/
theorem interp_union_defaults (S T : ChannelMap) (t t1 t2 : ℚ) (m : String) :
    (m ∈ keysOf (interpolateAll S T t) ↔ m ∈ keysOf S ∨ m ∈ keysOf T) ∧
    valD (interpolateAll S T t) m =
      sampleMorph (valD S m) (valD T m) (easeInOutCubic t) ∧
    (m ∉ keysOf T → 0 ≤ t1 → t1 ≤ t2 → t2 ≤ 1 →
      |valD (interpolateAll S T t2) m| ≤ |valD (interpolateAll S T t1) m|) := by
  refine ⟨?_, valD_interpolateAll S T t m, ?_⟩
  · rw [keysOf_interpolateAll]
    exact mem_allMorphs
  · intro hT h0 h12 h1
    rw [valD_interpolateAll, valD_interpolateAll, valD_eq_zero hT]
    have h := sample_dist_mono (valD S m) 0
      (easeInOutCubic_mono h0 h12 h1) (easeInOutCubic_le_one h1)
    simpa using h

/-- Witness for C10: start values `{A: 1}`, empty target map, eased times 0
and 1/2. -/
theorem interp_union_defaults_witness :
    ("A" ∉ keysOf ([] : ChannelMap) ∧ (0 : ℚ) ≤ 0 ∧ (0 : ℚ) ≤ 1 / 2 ∧
      (1 / 2 : ℚ) ≤ 1) ∧
    |valD (interpolateAll [("A", 1)] [] (1 / 2)) "A"| ≤
      |valD (interpolateAll [("A", 1)] [] 0) "A"| :=
  ⟨⟨by decide, by norm_num, by norm_num, by norm_num⟩,
    (interp_union_defaults [("A", 1)] [] 0 0 (1 / 2) "A").2.2
      (by decide) (by norm_num) (by norm_num) (by norm_num)⟩

theorem updateInterpolation_at_start {s : ClientState} {now : ℚ} (m : String)
    (hact : s.interpolationActive = true)
    (hstart : s.interpolationStartTime = now) :
    valD (updateInterpolation s now).currentBlendshapes m =
      valD s.interpolationStartValues m := by
  have h0 : tOf s.interpolationStartTime interpolationDurationMs now = 0 := by
    rw [hstart]
    unfold tOf
    norm_num [interpolationDurationMs]
  simp only [updateInterpolation, hact, if_true, h0]
  rw [if_neg (by norm_num)]
  rw [valD_interpolateAll, easeInOutCubic_zero]
  unfold sampleMorph
  ring

/-- C8: when a snapshot retargets the client, the new transition's start
values are the currently interpolated values (`currentBlendshapes` as left by
the frame's `updateInterpolation`, not the previous target), the transition
start time is reset to `now`, and the output is continuous at the moment of
retargeting: sampling the new transition at `now` reproduces the pre-retarget
current value of every morph. -/
theorem retarget_continuity (s : ClientState) (msg : CompressionMsg) (now : ℚ)
    (henable : s.enableInterpolation = true) :
    (handleBlendshapeUpdate (updateInterpolation s now) msg
        now).interpolationStartValues =
      (updateInterpolation s now).currentBlendshapes ∧
    (handleBlendshapeUpdate (updateInterpolation s now) msg
        now).interpolationStartTime = now ∧
    ∀ m, valD (updateInterpolation (handleBlendshapeUpdate
          (updateInterpolation s now) msg now) now).currentBlendshapes m =
        valD (updateInterpolation s now).currentBlendshapes m := by
  have h1 : (updateInterpolation s now).enableInterpolation = true := by
    rw [updateInterpolation_enable]
    exact henable
  have hsv : (handleBlendshapeUpdate (updateInterpolation s now) msg
      now).interpolationStartValues =
      (updateInterpolation s now).currentBlendshapes := by
    cases msg <;> simp [handleBlendshapeUpdate, h1]
  have hst : (handleBlendshapeUpdate (updateInterpolation s now) msg
      now).interpolationStartTime = now := by
    cases msg <;> simp [handleBlendshapeUpdate, h1]
  have hac : (handleBlendshapeUpdate (updateInterpolation s now) msg
      now).interpolationActive = true := by
    cases msg <;> simp [handleBlendshapeUpdate, h1]
  refine ⟨hsv, hst, fun m => ?_⟩
  rw [updateInterpolation_at_start m hac hst, hsv]

/-- The client mid-transition: the initial state fed a keyframe `{A: 1}` at
time 0. -/
def midFlightClient : ClientState :=
  handleBlendshapeUpdate initialClientState (CompressionMsg.keyframe [("A", 1)]) 0

/-- Witness for C8: retarget `midFlightClient` with a delta `{A: 1/2}` at
time 10 while its transition is in flight. -/
theorem retarget_continuity_witness :
    midFlightClient.enableInterpolation = true ∧
    ((handleBlendshapeUpdate (updateInterpolation midFlightClient 10)
        (CompressionMsg.delta [("A", 1 / 2)]) 10).interpolationStartValues =
        (updateInterpolation midFlightClient 10).currentBlendshapes ∧
      (handleBlendshapeUpdate (updateInterpolation midFlightClient 10)
        (CompressionMsg.delta [("A", 1 / 2)]) 10).interpolationStartTime = 10 ∧
      ∀ m, valD (updateInterpolation (handleBlendshapeUpdate
            (updateInterpolation midFlightClient 10)
            (CompressionMsg.delta [("A", 1 / 2)]) 10) 10).currentBlendshapes m =
          valD (updateInterpolation midFlightClient 10).currentBlendshapes m) :=
  ⟨by decide,
    retarget_continuity midFlightClient (CompressionMsg.delta [("A", 1 / 2)]) 10
      (by decide)⟩

/-- C5 (amended): the client has no decay mechanism at all: once the 33 ms
transition window has elapsed, an animation frame snaps `currentBlendshapes`
to the last target and deactivates interpolation, and every later animation
frame leaves the values unchanged — with no further snapshots a channel
holds its last target value indefinitely instead of converging to 0. -/
theorem no_decay_amended (s : ClientState) (now now2 : ℚ)
    (hact : s.interpolationActive = true)
    (hset : s.interpolationStartTime + interpolationDurationMs ≤ now) :
    (updateInterpolation s now).currentBlendshapes = s.targetBlendshapes ∧
    (updateInterpolation s now).interpolationActive = false ∧
    (updateInterpolation (updateInterpolation s now) now2).currentBlendshapes =
      s.targetBlendshapes := by
  have hd : (0 : ℚ) < interpolationDurationMs := by
    norm_num [interpolationDurationMs]
  have h1 : tOf s.interpolationStartTime interpolationDurationMs now = 1 :=
    tOf_eq_one hd hset
  have hcur : (updateInterpolation s now).currentBlendshapes =
      s.targetBlendshapes := by
    simp [updateInterpolation, hact, h1]
  have hina : (updateInterpolation s now).interpolationActive = false := by
    simp [updateInterpolation, hact, h1]
  exact ⟨hcur, hina, by rw [updateInterpolation_inactive now2 hina, hcur]⟩

/-- Witness for C5's amended statement: the mid-flight client sampled at
600 ms and again at 1000 ms still shows the full keyframe target. -/
theorem no_decay_amended_witness :
    (midFlightClient.interpolationActive = true ∧
      midFlightClient.interpolationStartTime + interpolationDurationMs ≤ 600) ∧
    ((updateInterpolation midFlightClient 600).currentBlendshapes =
        midFlightClient.targetBlendshapes ∧
      (updateInterpolation midFlightClient 600).interpolationActive = false ∧
      (updateInterpolation (updateInterpolation midFlightClient 600)
          1000).currentBlendshapes = midFlightClient.targetBlendshapes) :=
  ⟨⟨by decide,
      by norm_num [midFlightClient, handleBlendshapeUpdate, initialClientState,
        interpolationDurationMs]⟩,
    no_decay_amended midFlightClient 600 1000 (by decide)
      (by norm_num [midFlightClient, handleBlendshapeUpdate, initialClientState,
        interpolationDurationMs])⟩

/-- C5 counterexample: the claim's own scenario fails on the code: a channel
set to 0.8 by a keyframe at `t = 0` and never updated again still samples
`0.8` at `t = 600` ms (beyond the claimed 500 ms timeout), far above the
claimed bound of `0.01` — the code never decays a channel toward 0. -/
theorem no_decay_cex :
    valD (updateInterpolation (handleBlendshapeUpdate initialClientState
        (CompressionMsg.keyframe [("A", 4 / 5)]) 0) 600).currentBlendshapes "A" =
      4 / 5 ∧
    ¬(valD (updateInterpolation (handleBlendshapeUpdate initialClientState
        (CompressionMsg.keyframe [("A", 4 / 5)]) 0) 600).currentBlendshapes "A" ≤
      1 / 100) := by
  constructor <;>
    norm_num [updateInterpolation, handleBlendshapeUpdate, initialClientState,
      tOf, interpolationDurationMs, min_def, valD, getVal]

/-- C4 counterexample: a delta arriving before any keyframe is not rejected:
from the initial state (no keyframe received), `handleBlendshapeUpdate` of a
delta `{A: 1/2}` changes the target map to `{A: 1/2}` and counts the delta as
applied, rather than dropping the message with channel state unchanged. -/
theorem delta_before_keyframe_cex :
    getVal (handleBlendshapeUpdate initialClientState
        (CompressionMsg.delta [("A", 1 / 2)]) 0).targetBlendshapes "A" =
      some (1 / 2) ∧
    (handleBlendshapeUpdate initialClientState
        (CompressionMsg.delta [("A", 1 / 2)]) 0).deltasApplied = 1 ∧
    initialClientState.keyframesReceived = 0 := by
  refine ⟨?_, rfl, rfl⟩
  rfl

/-- C4 (amended): a delta received before any keyframe (empty baseline) is
processed, not rejected: the target map becomes exactly the delta applied to
the empty baseline and the applied-delta counter is incremented. -/
theorem delta_before_keyframe_amended (s : ClientState) (d : ChannelMap)
    (now : ℚ) (hkf : s.keyframeBlendshapes = []) :
    (handleBlendshapeUpdate s (CompressionMsg.delta d) now).targetBlendshapes =
      applyEntries [] d ∧
    (handleBlendshapeUpdate s (CompressionMsg.delta d) now).deltasApplied =
      s.deltasApplied + 1 := by
  unfold handleBlendshapeUpdate
  by_cases he : s.enableInterpolation <;> simp [he, hkf]

/-- Witness for C4's amended statement at the initial client state. -/
theorem delta_before_keyframe_amended_witness :
    initialClientState.keyframeBlendshapes = [] ∧
    ((handleBlendshapeUpdate initialClientState
        (CompressionMsg.delta [("A", 1 / 2)]) 7).targetBlendshapes =
      applyEntries [] [("A", 1 / 2)] ∧
    (handleBlendshapeUpdate initialClientState
        (CompressionMsg.delta [("A", 1 / 2)]) 7).deltasApplied =
      initialClientState.deltasApplied + 1) :=
  ⟨rfl, delta_before_keyframe_amended initialClientState [("A", 1 / 2)] 7 rfl⟩

/-- A small concrete scheduler state: one registered morph `V_Open`, which is
priority; quality `medium` (update threshold 0.01); selective updates on. -/
def exMorphState : MorphSystemState :=
  { quality := .medium
    selectiveUpdates := true
    lodEnabled := true
    priorityMorphs := {"V_Open"}
    morphNames := {"V_Open"}
    morphStates := fun _ => 0
    activeMorphs := ∅
    dirtyMorphs := ∅
    frameCounter := 0
    lodLevel := 0 }

/-- C1 counterexample: a priority morph appearing in an incoming snapshot is
not always admitted: at quality `medium` (threshold 0.01) a priority morph
whose incoming value differs from its current value by only 0.005 is rejected
by `setMorph` — the sub-threshold early exit runs before the priority bypass. -/
theorem priority_not_always_admitted_cex :
    "V_Open" ∈ exMorphState.priorityMorphs ∧
    (setMorph exMorphState "V_Open" (5 / 1000) false).1 = false := by
  constructor
  · simp [exMorphState]
  · norm_num [setMorph, exMorphState, qualityPresets, abs_of_nonneg]

/-- C1 (amended): a priority morph registered in the morph map is admitted by
`setMorph` whenever its value change is at least the quality preset's update
threshold, regardless of how full the active-morph set is (the
`maxActiveMorphs` cap check is bypassed for priority morphs), and
`shouldUpdateMorph` returns true for priority morphs unconditionally. -/
theorem priority_admission_amended (s : MorphSystemState) (name : String)
    (value : ℚ) (hreg : name ∈ s.morphNames) (hpri : name ∈ s.priorityMorphs)
    (hthr : (qualityPresets s.quality).morphUpdateThreshold ≤
      |value - s.morphStates name|) :
    (setMorph s name value false).1 = true ∧
    shouldUpdateMorph s name = true := by
  have hthr0 : ¬(|value - s.morphStates name| <
      (qualityPresets s.quality).morphUpdateThreshold) := not_lt.mpr hthr
  constructor
  · simp [setMorph, hreg, hpri, hthr0]
  · simp [shouldUpdateMorph, hpri]

/-- The 50 background (non-priority) morph names of the concrete saturation
scenario. -/
def bgNames : List String := (List.range 50).map fun i => "bg" ++ toString i

/-- A scheduler state at quality `low` (cap 50) whose active set already
holds 50 non-priority morphs: the active-morph cap is fully saturated by
non-priority morphs. -/
def saturatedState : MorphSystemState :=
  { quality := .low
    selectiveUpdates := true
    lodEnabled := true
    priorityMorphs := {"V_Open"}
    morphNames := insert "V_Open" bgNames.toFinset
    morphStates := fun _ => 0
    activeMorphs := bgNames.toFinset
    dirtyMorphs := ∅
    frameCounter := 0
    lodLevel := 0 }

/-- Witness for C1: with the cap (50 at quality low) saturated by 50
non-priority morphs, the priority morph `V_Open` changing by 0.5 is still
admitted and `shouldUpdateMorph` approves it. -/
theorem priority_admission_amended_witness :
    ("V_Open" ∈ saturatedState.morphNames ∧
      "V_Open" ∈ saturatedState.priorityMorphs ∧
      (qualityPresets saturatedState.quality).morphUpdateThreshold ≤
        |(1 / 2 : ℚ) - saturatedState.morphStates "V_Open"| ∧
      (qualityPresets saturatedState.quality).maxActiveMorphs ≤
        saturatedState.activeMorphs.card) ∧
    ((setMorph saturatedState "V_Open" (1 / 2) false).1 = true ∧
      shouldUpdateMorph saturatedState "V_Open" = true) :=
  ⟨⟨by simp [saturatedState], by simp [saturatedState],
      by norm_num [saturatedState, qualityPresets, abs_of_nonneg],
      by decide⟩,
    priority_admission_amended saturatedState "V_Open" (1 / 2)
      (by simp [saturatedState])
      (by simp [saturatedState])
      (by norm_num [saturatedState, qualityPresets, abs_of_nonneg])⟩

/-- C9 counterexample: nothing clamps on decode: a keyframe carrying `1.5`
leaves `1.5` in the client's target map, a delta carrying `1.5` does the
same, `setMorph` stores `1.5` verbatim in the morph state, and `1.5` lies
outside `[0, 1]`. -/
theorem no_clamp_cex :
    getVal (handleBlendshapeUpdate initialClientState
        (CompressionMsg.keyframe [("A", 3 / 2)]) 0).targetBlendshapes "A" =
      some (3 / 2) ∧
    getVal (handleBlendshapeUpdate initialClientState
        (CompressionMsg.delta [("A", 3 / 2)]) 0).targetBlendshapes "A" =
      some (3 / 2) ∧
    (setMorph exMorphState "V_Open" (3 / 2) false).2.morphStates "V_Open" =
      3 / 2 ∧
    ¬((3 / 2 : ℚ) ≤ 1) := by
  refine ⟨rfl, rfl, ?_, by norm_num⟩
  norm_num [setMorph, exMorphState, qualityPresets, abs_of_nonneg]

/-- C9 (amended): decode-time values are stored verbatim, not clamped: the
client stores received keyframe values unchanged in its target map, every
channel carried by a received delta likewise overwrites the target map with
its wire value unchanged, and whenever `setMorph` accepts an update it
stores the raw value unchanged — even when the wire value lies outside
`[0, 1]`. -/
theorem verbatim_store_amended :
    (∀ (s : ClientState) (data : ChannelMap) (now : ℚ) (m : String),
      getVal (handleBlendshapeUpdate s (CompressionMsg.keyframe data)
          now).targetBlendshapes m = getVal data m) ∧
    (∀ (s : ClientState) (d : ChannelMap) (now : ℚ) (m : String),
      (keysOf d).Nodup → m ∈ keysOf d →
      getVal (handleBlendshapeUpdate s (CompressionMsg.delta d)
          now).targetBlendshapes m = getVal d m) ∧
    (∀ (st : MorphSystemState) (name : String) (v : ℚ) (force : Bool),
      (setMorph st name v force).1 = true →
      (setMorph st name v force).2.morphStates name = v) := by
  refine ⟨?_, ?_, ?_⟩
  · intro s data now m
    unfold handleBlendshapeUpdate
    by_cases he : s.enableInterpolation <;> simp [he]
  · intro s d now m hd hm
    have htarget : (handleBlendshapeUpdate s (CompressionMsg.delta d)
        now).targetBlendshapes = applyEntries s.keyframeBlendshapes d := by
      unfold handleBlendshapeUpdate
      by_cases he : s.enableInterpolation <;> simp [he]
    rw [htarget, getVal_applyEntries s.keyframeBlendshapes m hd,
      getVal_eq_some_valD hm]
  · intro st name v force h
    have hcases : (setMorph st name v force).1 = false ∨
        (setMorph st name v force).2.morphStates name = v := by
      simp only [setMorph]
      split_ifs <;> simp
    refine hcases.resolve_left fun hf => ?_
    rw [h] at hf
    exact Bool.noConfusion hf

/-- Witness for C9's amended statement: a delta value `1.5` is stored
verbatim by the client when a keyframe `{A: 1}` is already in place, and a
forced `setMorph` of `1.5` is accepted and stores `1.5`. -/
theorem verbatim_store_amended_witness :
    ((keysOf [("A", (3 : ℚ) / 2)]).Nodup ∧
      "A" ∈ keysOf [("A", (3 : ℚ) / 2)] ∧
      (setMorph exMorphState "V_Open" (3 / 2) true).1 = true) ∧
    (getVal (handleBlendshapeUpdate
        (handleBlendshapeUpdate initialClientState
          (CompressionMsg.keyframe [("A", 1)]) 0)
        (CompressionMsg.delta [("A", (3 : ℚ) / 2)]) 0).targetBlendshapes "A" =
      getVal [("A", (3 : ℚ) / 2)] "A" ∧
    (setMorph exMorphState "V_Open" (3 / 2) true).2.morphStates "V_Open" =
      3 / 2) :=
  ⟨⟨by decide, by decide, by simp [setMorph, exMorphState]⟩,
    verbatim_store_amended.2.1
      (handleBlendshapeUpdate initialClientState
        (CompressionMsg.keyframe [("A", 1)]) 0)
      [("A", (3 : ℚ) / 2)] 0 "A" (by decide) (by decide),
    verbatim_store_amended.2.2 exMorphState "V_Open" (3 / 2) true
      (by simp [setMorph, exMorphState])⟩

/-- C6 counterexample: starting at High, a single observation window with
average fps 20 (a 3x frame-time spike) makes the dynamic quality loop call
`setQuality('low')` directly: the tier lands on Low — two steps below High —
not on Medium. -/
theorem tier_skip_cex :
    (adjustQuality { exMorphState with quality := Quality.high } 20).quality =
      Quality.low ∧
    tierIdx Quality.high = tierIdx Quality.low + 2 := by
  constructor
  · decide
  · rfl

/-- C6 (amended): the dynamic quality loop changes tier in exactly two ways:
when the average fps drops below 30 it degrades directly to Low from
whatever the current tier is (skipping intermediate tiers), and from Low
with average fps above 55 it upgrades one step to Medium; in every other
case the tier is unchanged. -/
theorem tier_change_amended (s : MorphSystemState) (avgFps : ℚ)
    (hch : (adjustQuality s avgFps).quality ≠ s.quality) :
    (avgFps < 30 ∧ (adjustQuality s avgFps).quality = Quality.low) ∨
    (s.quality = Quality.low ∧ 55 < avgFps ∧
      (adjustQuality s avgFps).quality = Quality.medium) := by
  by_cases h1 : avgFps < 30 <;> by_cases h2 : s.quality = Quality.low <;>
    by_cases h3 : 55 < avgFps
  · linarith
  · exact absurd (by simp [adjustQuality, h1, h2, h3]) hch
  · exact Or.inl ⟨h1, by simp [adjustQuality, setQuality, parseQuality, h1, h2]⟩
  · exact Or.inl ⟨h1, by simp [adjustQuality, setQuality, parseQuality, h1, h2]⟩
  · exact Or.inr ⟨h2, h3, by
      simp [adjustQuality, setQuality, parseQuality, h1, h2, h3]⟩
  · exact absurd (by simp [adjustQuality, h1, h2, h3]) hch
  · exact absurd (by simp [adjustQuality, h1, h2, h3]) hch
  · exact absurd (by simp [adjustQuality, h1, h2, h3]) hch

/-- Witness for C6's amended statement: from High with average fps 20 the
tier changes, and the change is a degrade-to-Low with fps below 30. -/
theorem tier_change_amended_witness :
    (adjustQuality { exMorphState with quality := Quality.high } 20).quality ≠
      ({ exMorphState with quality := Quality.high } :
        MorphSystemState).quality ∧
    (((20 : ℚ) < 30 ∧
      (adjustQuality { exMorphState with quality := Quality.high } 20).quality =
        Quality.low) ∨
    (({ exMorphState with quality := Quality.high } :
        MorphSystemState).quality = Quality.low ∧ (55 : ℚ) < 20 ∧
      (adjustQuality { exMorphState with quality := Quality.high } 20).quality =
        Quality.medium)) :=
  ⟨by decide,
    tier_change_amended { exMorphState with quality := Quality.high } 20
      (by decide)⟩

theorem not_mem_keysOf {m : ChannelMap} {k : String} (h : getVal m k = none) :
    k ∉ keysOf m := fun hm => by
  have hs := getVal_isSome_iff.mpr hm
  rw [h] at hs
  exact Bool.noConfusion hs

/-- C2 counterexample: the "exactly the channels whose value differs from K
by more than the wire epsilon" law fails for channels new in `S` with
negligible magnitude: with `S = {x: 0.0005}` and `K = {}` (the channel reads
0 in the reference), `compress` carries `x` — and decode reconstructs it —
although its value differs from the reference by only 0.0005 ≤ 0.001. -/
theorem compress_roundtrip_cex :
    keysOf (compress [("x", 5 / 10000)] []) = ["x"] ∧
    ¬(wireEps < |valD [("x", 5 / 10000)] "x" - valD [] "x"|) := by
  constructor
  · rfl
  · norm_num [valD, getVal, wireEps, abs_of_nonneg]

/-- C2 (amended): the round trip of `compress` with the client's delta
application. The delta carries exactly: every channel of `S` absent from `K`
(whatever its magnitude), the shared channels differing from the reference by
more than the wire epsilon 0.001, and — encoded explicitly as 0 — the
channels of `K` absent from `S` whose reference value exceeds the epsilon.
Decoding (spreading the keyframe and overwriting with the delta's entries,
as the client does) reproduces every channel's value to within the wire
epsilon of its value in `S`, absent channels reading as 0, for nonnegative
reference values. -/
theorem compress_roundtrip_amended (S K : ChannelMap)
    (hS : (keysOf S).Nodup) (hK : (keysOf K).Nodup)
    (hKpos : ∀ kv ∈ K, 0 ≤ kv.2) :
    (∀ k, k ∈ keysOf (compress S K) ↔
        ((k ∈ keysOf S ∧ (k ∉ keysOf K ∨ wireEps < |valD S k - valD K k|)) ∨
          (k ∉ keysOf S ∧ k ∈ keysOf K ∧ wireEps < valD K k))) ∧
    (∀ k, |valD (applyEntries K (compress S K)) k - valD S k| ≤ wireEps) := by
  constructor
  · intro k
    have hiff : ((getVal (compress S K) k).isSome = true) ↔
        k ∈ keysOf (compress S K) := getVal_isSome_iff
    rw [← hiff, getVal_compress S K hS hK k]
    cases hvS : getVal S k with
    | some v =>
      have hmemS : k ∈ keysOf S := mem_keysOf_of_getVal hvS
      have hvdS : valD S k = v := by simp [valD, hvS]
      cases hvK : getVal K k with
      | none =>
        have hmemK : k ∉ keysOf K := not_mem_keysOf hvK
        simp [hmemS, hmemK]
      | some pv =>
        have hmemK : k ∈ keysOf K := mem_keysOf_of_getVal hvK
        have hvdK : valD K k = pv := by simp [valD, hvK]
        by_cases hc : wireEps < |v - pv|
        · simp [hc, hmemS, hmemK, hvdS, hvdK]
        · simp [hc, hmemS, hmemK, hvdS, hvdK]
    | none =>
      have hmemS : k ∉ keysOf S := not_mem_keysOf hvS
      cases hvK : getVal K k with
      | none =>
        have hmemK : k ∉ keysOf K := not_mem_keysOf hvK
        simp [hmemS, hmemK]
      | some pv =>
        have hmemK : k ∈ keysOf K := mem_keysOf_of_getVal hvK
        have hvdK : valD K k = pv := by simp [valD, hvK]
        by_cases hc : wireEps < pv
        · simp [hc, hmemS, hmemK, hvdK]
        · simp [hc, hmemS, hmemK, hvdK]
  · intro k
    have happ := getVal_applyEntries K k (keysOf_compress_nodup hS hK)
    rw [getVal_compress S K hS hK k] at happ
    cases hvS : getVal S k with
    | some v =>
      rw [hvS] at happ
      have hvdS : valD S k = v := by simp [valD, hvS]
      cases hvK : getVal K k with
      | none =>
        simp only [hvK] at happ
        rw [hvdS, valD, happ, Option.getD_some, sub_self, abs_zero]
        norm_num [wireEps]
      | some pv =>
        by_cases hc : wireEps < |v - pv|
        · simp only [hvK, if_pos hc] at happ
          rw [hvdS, valD, happ, Option.getD_some, sub_self, abs_zero]
          norm_num [wireEps]
        · simp only [hvK, if_neg hc] at happ
          rw [hvdS, valD, happ, Option.getD_some, abs_sub_comm]
          exact not_lt.mp hc
    | none =>
      rw [hvS] at happ
      have hvdS : valD S k = 0 := by simp [valD, hvS]
      cases hvK : getVal K k with
      | none =>
        simp only [hvK] at happ
        rw [hvdS, valD, happ, Option.getD_none, sub_self, abs_zero]
        norm_num [wireEps]
      | some pv =>
        have hpv0 : (0 : ℚ) ≤ pv := hKpos (k, pv) (entry_mem_of_getVal hvK)
        by_cases hc : wireEps < pv
        · simp only [hvK, if_pos hc] at happ
          rw [hvdS, valD, happ, Option.getD_some, sub_self, abs_zero]
          norm_num [wireEps]
        · simp only [hvK, if_neg hc] at happ
          rw [hvdS, valD, happ, Option.getD_some, sub_zero, abs_of_nonneg hpv0]
          exact not_lt.mp hc

/-- Witness for C2's amended round trip at `S = {a: 1/2}` against the
reference `K = {a: 1/4, b: 1/2}`. -/
theorem compress_roundtrip_amended_witness :
    ((keysOf [("a", (1 : ℚ) / 2)]).Nodup ∧
      (keysOf [("a", (1 : ℚ) / 4), ("b", 1 / 2)]).Nodup ∧
      ∀ kv ∈ [("a", (1 : ℚ) / 4), ("b", 1 / 2)], 0 ≤ kv.2) ∧
    ∀ k, |valD (applyEntries [("a", (1 : ℚ) / 4), ("b", 1 / 2)]
        (compress [("a", (1 : ℚ) / 2)] [("a", (1 : ℚ) / 4), ("b", 1 / 2)])) k -
          valD [("a", (1 : ℚ) / 2)] k| ≤ wireEps :=
  ⟨⟨by decide, by decide,
      by
        intro kv hkv
        rcases List.mem_cons.mp hkv with rfl | h
        · norm_num
        · rcases List.mem_cons.mp h with rfl | h
          · norm_num
          · exact absurd h (List.not_mem_nil kv)⟩,
    (compress_roundtrip_amended [("a", (1 : ℚ) / 2)]
      [("a", (1 : ℚ) / 4), ("b", 1 / 2)] (by decide) (by decide)
      (by
        intro kv hkv
        rcases List.mem_cons.mp hkv with rfl | h
        · norm_num
        · rcases List.mem_cons.mp h with rfl | h
          · norm_num
          · exact absurd h (List.not_mem_nil kv))).2⟩

end AvatarEngine
